import Mathlib

/-!
Shallow embedding of the mesh-refinement driver `Refine<real_t, index_t>` from
`src/include/Refine.h` (anisotropic simplicial mesh refinement).

Modelling conventions:
* Local vertex ids (LIDs) are `Nat`; global ids (GIDs, `lnn2gnn`) are modelled by a
  total map `gnn : Nat → Int`.
* `refined_edges` is a `List (List Int)`: for vertex `i`, slot `2*t` carries the
  new-vertex entry for the `t`-th neighbour and slot `2*t+1` the producer tag,
  exactly as in the source.  `-1` is the unset value and
  `intMax = std::numeric_limits<int>::max()` is the pending-mark sentinel.
* The serial schedule is modelled (one OpenMP thread, one MPI rank): the OpenMP
  loops become left folds in loop order and the thread-local buffers become a
  single buffer record, which is the source's own semantics at `nthreads = 1`.
* The external metric-length primitive `Mesh::calc_edge_length` /
  `ElementProperty::length` (out of scope per the spec, section 6) is a function
  parameter, as are the numeric coordinate/metric interpolation outputs inside the
  staged pipeline; the numeric body of `Refine::refine_edge` itself is embedded
  separately over an ordered field.
-/

namespace Pragmatic

/-- The pending-mark sentinel `std::numeric_limits<index_t>::max()` for
`index_t = int`. -/
def intMax : Int := 2147483647

/-- The linear scan `while(_mesh->NNList[n0][pos] != n1) ++pos;` from
`Refine::mark_edge`.  Running past the end of the neighbour list (target absent)
is modelled by `none`. -/
def scanPos : List Nat → Nat → Option Nat
  | [], _ => none
  | h :: t, x => if h = x then some 0 else (scanPos t x).map (· + 1)

/-- Write value `v` into slot `idx` of row `i` of `refined_edges`. -/
def setSlot (re : List (List Int)) (i idx : Nat) (v : Int) : List (List Int) :=
  re.set i ((re.getD i []).set idx v)

/-- `Refine::mark_edge`: order the endpoints by GID, locate the second endpoint in
the first one's neighbour list, and store the pending sentinel in the
corresponding even slot.  The undefined out-of-bounds scan (target absent) leaves
the state unchanged in the model; `scanPos` records that case as `none`. -/
def mark_edge (gnn : Nat → Int) (nnl : List (List Nat)) (re : List (List Int))
    (a b : Nat) : List (List Int) :=
  let n0 := if gnn a > gnn b then b else a
  let n1 := if gnn a > gnn b then a else b
  match scanPos (nnl.getD n0 []) n1 with
  | some pos => setSlot re n0 (2 * pos) intMax
  | none => re

/-- Modelled from the spec: `Mesh::get_new_vertex(a, b, refined_edges, lnn2gnn)`
is code of this repository not under `src/`.  Per the spec (sections 3 and 6) it
returns the new-vertex entry stored in the slot pair kept at the endpoint with
the lesser GID, or `-1` when the edge has no entry. -/
def get_new_vertex (gnn : Nat → Int) (nnl : List (List Nat))
    (re : List (List Int)) (a b : Nat) : Int :=
  match scanPos (nnl.getD (if gnn a < gnn b then a else b) [])
      (if gnn a < gnn b then b else a) with
  | some p => (re.getD (if gnn a < gnn b then a else b) []).getD (2 * p) (-1)
  | none => -1

/-- Modelled from the spec: the mesh collaborator's undirected edge type
`Edge<index_t>` (not under `src/`); endpoints are held sorted so that equality is
independent of construction order, matching its use with `std::find`. -/
structure UEdge where
  lo : Nat
  hi : Nat
deriving DecidableEq, Repr

/-- Constructor of `Edge<index_t>`: store the endpoints sorted. -/
def mkEdge (a b : Nat) : UEdge :=
  if a ≤ b then ⟨a, b⟩ else ⟨b, a⟩

/-- Modelled from the spec: `Edge::contains(nid)`. -/
def UEdge.hasVertex (e : UEdge) (x : Nat) : Bool :=
  x == e.lo || x == e.hi

/-- Modelled from the spec: `Edge::connected(other)` returns a vertex shared by
the two edges, or `-1`. -/
def UEdge.conn (e1 e2 : UEdge) : Int :=
  if e1.lo = e2.lo ∨ e1.lo = e2.hi then (e1.lo : Int)
  else if e1.hi = e2.lo ∨ e1.hi = e2.hi then (e1.hi : Int)
  else -1

/- ### Lemmas about the mark_edge scan -/

theorem scanPos_eq_none_of_not_mem {l : List Nat} {x : Nat} (h : x ∉ l) :
    scanPos l x = none := by
  induction l with
  | nil => rfl
  | cons a t ih =>
    simp only [List.mem_cons, not_or] at h
    have hne : a ≠ x := fun hax => h.1 hax.symm
    simp [scanPos, hne, ih h.2]

theorem scanPos_lt_length_of_mem {l : List Nat} {x : Nat} (h : x ∈ l) :
    ∃ p, scanPos l x = some p ∧ p < l.length := by
  induction l with
  | nil => cases h
  | cons a t ih =>
    by_cases ha : a = x
    · exact ⟨0, by simp [scanPos, ha], by simp⟩
    · have hx : x ∈ t := by
        rcases List.mem_cons.mp h with h1 | h1
        · exact absurd h1.symm ha
        · exact h1
      obtain ⟨p, hp, hlt⟩ := ih hx
      exact ⟨p + 1, by simp [scanPos, ha, hp], by simpa using Nat.succ_lt_succ hlt⟩

/-- Claim C10: `Refine::mark_edge` implicitly requires that (after GID ordering)
the second endpoint occurs in the first endpoint's neighbour list.  Under that
precondition the linear scan embedded as `scanPos` terminates at an index `p`
below the neighbour-list length, so the write into the `refined_edges` row of
size `2 * |NNList[n0]|` at slot `2*p` is in bounds; without the precondition the
scan runs past the end of the list (`scanPos` yields `none`). -/
theorem mark_edge_scan_safe (nb : List Nat) (n1 : Nat) :
    (n1 ∈ nb → ∃ p, scanPos nb n1 = some p ∧ p < nb.length ∧
      2 * p < 2 * nb.length) ∧
    (n1 ∉ nb → scanPos nb n1 = none) := by
  constructor
  · intro h
    obtain ⟨p, hp, hlt⟩ := scanPos_lt_length_of_mem h
    exact ⟨p, hp, hlt, by omega⟩
  · exact scanPos_eq_none_of_not_mem

/-- Witness for C10 at a concrete neighbour list. -/
theorem mark_edge_scan_safe_witness :
    (7 : Nat) ∈ [5, 7] ∧ ∃ p, scanPos [5, 7] 7 = some p ∧ p < 2 ∧ 2 * p < 4 :=
  ⟨by decide, (mark_edge_scan_safe [5, 7] 7).1 (by decide)⟩

/- ### Edge-selection pass (Refine::refine, lines 160-202) -/

/-- The producer-local staging buffers of the single worker: `splitCnt[0]`,
`newVertices[0]` (directed GID pairs), `newCoords[0]` and `newMetric[0]`.  The
numeric output of `refine_edge` is supplied by the interpolation parameters
`iC`/`iM` (its body is embedded separately over an ordered field below). -/
structure Buffers where
  cnt : Nat
  newV : List (Int × Int)
  newC : List ℚ
  newM : List ℚ
deriving DecidableEq, Repr

/-- State threaded through the selection and propagation phases:
`refined_edges` plus the staging buffers. -/
structure SelState where
  re : List (List Int)
  buf : Buffers
deriving DecidableEq, Repr

/-- The staging effect of `Refine::refine_edge`: swap the endpoints so the
lesser GID comes first, push the directed GID pair, and append the interpolated
coordinates and metric of the tentative new vertex. -/
def refineEdgeStage (gnn : Nat → Int) (iC iM : Nat → Nat → List ℚ)
    (b : Buffers) (n0 n1 : Nat) : Buffers :=
  let a := if gnn n0 > gnn n1 then n1 else n0
  let c := if gnn n0 > gnn n1 then n0 else n1
  { b with
    newV := b.newV ++ [(gnn a, gnn c)]
    newC := b.newC ++ iC a c
    newM := b.newM ++ iM a c }

/-- One neighbour position `it` of vertex `i` in the selection loop: if the GID
order puts `i` first and the metric length exceeds `L_max`, assign the
producer-local offset and tag to the two slots and stage the new vertex. -/
def selStep (gnn : Nat → Int) (nnl : List (List Nat)) (cl : Nat → Nat → ℚ)
    (Lmax : ℚ) (iC iM : Nat → Nat → List ℚ) (i : Nat)
    (p : List Int × Buffers) (it : Nat) : List Int × Buffers :=
  if gnn i < gnn ((nnl.getD i []).getD it 0) ∧
      Lmax < cl i ((nnl.getD i []).getD it 0) then
    ((p.1.set (2 * it) (p.2.cnt : Int)).set (2 * it + 1) 0,
     refineEdgeStage gnn iC iM { p.2 with cnt := p.2.cnt + 1 } i
       ((nnl.getD i []).getD it 0))
  else p

/-- The selection-loop body for vertex `i`: allocate the `refined_edges[i]` row
of length twice the neighbour list, initialised to `-1`, then scan all
neighbour positions. -/
def selVertex (gnn : Nat → Int) (nnl : List (List Nat)) (cl : Nat → Nat → ℚ)
    (Lmax : ℚ) (iC iM : Nat → Nat → List ℚ) (st : SelState) (i : Nat) :
    SelState :=
  let nb := nnl.getD i []
  let p := (List.range nb.length).foldl (selStep gnn nnl cl Lmax iC iM i)
    (List.replicate (2 * nb.length) (-1), st.buf)
  { re := st.re.set i p.1, buf := p.2 }

/-- The whole edge-selection pass over all vertices (serial schedule). -/
def selectPass (gnn : Nat → Int) (nnl : List (List Nat)) (cl : Nat → Nat → ℚ)
    (Lmax : ℚ) (iC iM : Nat → Nat → List ℚ) : SelState :=
  (List.range nnl.length).foldl (selVertex gnn nnl cl Lmax iC iM)
    { re := List.replicate nnl.length [], buf := ⟨0, [], [], []⟩ }

/- ### Conforming propagation, 3D (Refine::refine, lines 207-339) -/

/-- Ordered index pairs `(j,k)` with `j < k`, in the order of the source's nested
loops. -/
def idxPairs (m : Nat) : List (Nat × Nat) :=
  (List.range m).flatMap fun j =>
    (List.range m).filterMap fun k => if j < k then some (j, k) else none

/-- The split set of one element: the edges of the 4-tuple `n` that currently
have a new-vertex entry, in nested-loop order. -/
def splitSet (gnn : Nat → Int) (nnl : List (List Nat)) (re : List (List Int))
    (n : List Nat) : List UEdge :=
  (idxPairs 4).filterMap fun jk =>
    let a := n.getD jk.1 0
    let b := n.getD jk.2 0
    if 0 ≤ get_new_vertex gnn nnl re a b then some (mkEdge a b) else none

/-- Mark every edge of the element that is not in the split set; also report how
many edges were marked (used by the `case 5` counter). -/
def markUnsplit (gnn : Nat → Int) (nnl : List (List Nat)) (ss : List UEdge)
    (n : List Nat) (re : List (List Int)) : List (List Int) × Nat :=
  (idxPairs 4).foldl
    (fun acc jk =>
      let a := n.getD jk.1 0
      let b := n.getD jk.2 0
      if mkEdge a b ∈ ss then acc
      else (mark_edge gnn nnl acc.1 a b, acc.2 + 1))
    (re, 0)

/-- The case table applied to one non-erased tetrahedron `n`; the pair threads
`refined_edges` together with the `new_edges_size` counter.  Mirrors the switch
of the source: only `case 2` (shared-vertex) and `case 5` increment the counter;
`case 3` (non-face) and `case 4` mark edges without counting them. -/
def propElement (gnn : Nat → Int) (nnl : List (List Nat))
    (acc : List (List Int) × Nat) (n : List Nat) : List (List Int) × Nat :=
  let ss := splitSet gnn nnl acc.1 n
  if ss.length = 2 then
    let e0 := ss.getD 0 ⟨0, 0⟩
    let e1 := ss.getD 1 ⟨0, 0⟩
    let s := UEdge.conn e0 e1
    if 0 ≤ s then
      let s0 := s.toNat
      let v1 := if s0 = e0.lo then e0.hi else e0.lo
      let v2 := if s0 = e1.lo then e1.hi else e1.lo
      (mark_edge gnn nnl acc.1 v1 v2, acc.2 + 1)
    else acc
  else if ss.length = 3 then
    let sh := (idxPairs 3).filterMap fun jk =>
      let c := UEdge.conn (ss.getD jk.1 ⟨0, 0⟩) (ss.getD jk.2 ⟨0, 0⟩)
      if 0 ≤ c then some c.toNat else none
    if sh.dedup.length ≠ 3 then ((markUnsplit gnn nnl ss n acc.1).1, acc.2)
    else acc
  else if ss.length = 4 then
    ((markUnsplit gnn nnl ss n acc.1).1, acc.2)
  else if ss.length = 5 then
    let mu := markUnsplit gnn nnl ss n acc.1
    (mu.1, acc.2 + mu.2)
  else acc

/-- Read the `nloc` vertex entries of element `i` from the flattened element
array. -/
def readElem (en : List Int) (nloc i : Nat) : List Int :=
  (List.range nloc).map fun j => en.getD (nloc * i + j) 0

/-- One pass of the propagation loop over all elements (skipping erased ones),
returning the updated `refined_edges` and the `new_edges_size` counter. -/
def propScan (gnn : Nat → Int) (nnl : List (List Nat)) (en : List Int)
    (re : List (List Int)) : List (List Int) × Nat :=
  ((List.range (en.length / 4)).map (readElem en 4)).foldl
    (fun acc n =>
      if n.getD 0 0 < 0 then acc
      else propElement gnn nnl acc (n.map Int.toNat))
    (re, 0)

/-- The realise scan: every slot equal to the pending sentinel receives a
producer offset and tag, and its new vertex is staged exactly as in the
selection pass. -/
def realizeVertex (gnn : Nat → Int) (nnl : List (List Nat))
    (iC iM : Nat → Nat → List ℚ) (st : SelState) (i : Nat) : SelState :=
  let nb := nnl.getD i []
  (List.range nb.length).foldl
    (fun s it =>
      if (s.re.getD i []).getD (2 * it) (-1) = intMax then
        let other := nb.getD it 0
        let re2 := setSlot (setSlot s.re i (2 * it) (s.buf.cnt : Int)) i
          (2 * it + 1) 0
        { re := re2,
          buf := refineEdgeStage gnn iC iM { s.buf with cnt := s.buf.cnt + 1 }
            i other }
      else s)
    st

/-- The realise scan over all vertices. -/
def realizePass (gnn : Nat → Int) (nnl : List (List Nat))
    (iC iM : Nat → Nat → List ℚ) (st : SelState) : SelState :=
  (List.range nnl.length).foldl (realizeVertex gnn nnl iC iM) st

/-- The 3D conforming-propagation fixpoint loop: scan all elements, and exit as
soon as the `new_edges_size` counter is zero; otherwise realise the marked edges
and iterate.  The unbounded `for(;;)` of the source is given explicit fuel. -/
def propLoop (gnn : Nat → Int) (nnl : List (List Nat))
    (iC iM : Nat → Nat → List ℚ) (en : List Int) :
    Nat → SelState → SelState
  | 0, st => st
  | fuel + 1, st =>
    let p := propScan gnn nnl en st.re
    let st2 := { st with re := p.1 }
    if p.2 = 0 then st2
    else propLoop gnn nnl iC iM en fuel (realizePass gnn nnl iC iM st2)

/- ### Concrete single-rank 3D input: one tetrahedron with a chain of three
long edges -/

/-- Identity global numbering (serial run: `lnn2gnn[i] = i`). -/
def gnnId : Nat → Int := fun i => (i : Int)

/-- Full adjacency of the single tetrahedron `0 1 2 3`. -/
def nnlTet : List (List Nat) := [[1, 2, 3], [0, 2, 3], [0, 1, 3], [0, 1, 2]]

/-- Element array of the single tetrahedron. -/
def enTet : List Int := [0, 1, 2, 3]

/-- Metric edge lengths: the chain `(0,1), (1,2), (2,3)` has length `3`, the
remaining three edges length `1` (an external-primitive instantiation). -/
def clTet : Nat → Nat → ℚ := fun a b =>
  if (a, b) = (0, 1) ∨ (a, b) = (1, 2) ∨ (a, b) = (2, 3) then 3 else 1

/-- Placeholder interpolated coordinates for staged vertices (3 components). -/
def iCTet : Nat → Nat → List ℚ := fun _ _ => [0, 0, 0]

/-- Placeholder interpolated metric for staged vertices (9 components). -/
def iMTet : Nat → Nat → List ℚ := fun _ _ => [0, 0, 0, 0, 0, 0, 0, 0, 0]

/-- The selection pass on the chain tetrahedron with `L_max = 2`: exactly the
three chain edges are staged. -/
def selTet : SelState := selectPass gnnId nnlTet clTet 2 iCTet iMTet

/-- Claim C1: refuted by the code.  On the chain tetrahedron the case table
(split count 3, shared-endpoint count 2, not a face) marks the three unsplit
edges but does not add them to `new_edges_size`, so the very iteration that
marked them reports a zero counter and the propagation loop exits; the marked
slots still hold the pending sentinel `intMax` and are never realised as
vertices.  The three conjuncts: the exit iteration did mark edges
(`refined_edges` changed), its counter is nevertheless zero, and after the loop
a slot still holds the sentinel while only the three chain vertices were ever
staged. -/
theorem prop_loop_exits_with_sentinel :
    (propScan gnnId nnlTet enTet selTet.re).1 ≠ selTet.re ∧
    (propScan gnnId nnlTet enTet selTet.re).2 = 0 ∧
    ((propLoop gnnId nnlTet iCTet iMTet enTet 13 selTet).re.getD 0 []).getD 2
      (-1) = intMax ∧
    (propLoop gnnId nnlTet iCTet iMTet enTet 13 selTet).buf.cnt = 3 := by
  decide

/- ### Vertex insertion (Refine::refine, lines 341-401) -/

/-- The mesh containers the refinement mutates: flattened coordinates and
metric, flattened element-node list, and the per-vertex owner array.  Halo
send/recv sets and adjacency are external state the serial model does not
carry. -/
structure MeshState where
  coords : List ℚ
  metric : List ℚ
  en : List Int
  owner : List Int
deriving DecidableEq, Repr

/-- The slot fixup of lines 394-400: add the (single-worker) base offset to
every even slot that is not `-1`. -/
def fixRow (base : Nat) : List Int → List Int
  | a :: b :: t => (if a = -1 then a else a + base) :: b :: fixRow base t
  | l => l

/-- Append the staged coordinates, metric and owner entries to the mesh (the
prefix-sum plus `memcpy` of the source at one worker: `threadIdx[0] = NNodes`),
fix the slot ids in `refined_edges`, and assign the new vertices their final
LIDs `NNodes + k`.  Returns the updated mesh, the updated selection state, and
the new-vertex records `(gid_lo, gid_hi, lid)`. -/
def insertPhase (nnodes : Nat) (ms : MeshState) (st : SelState) :
    MeshState × SelState × List (Int × Int × Nat) :=
  ({ ms with
      coords := ms.coords ++ st.buf.newC
      metric := ms.metric ++ st.buf.newM
      owner := ms.owner ++ List.replicate st.buf.cnt (-1) },
   { st with re := st.re.map (fixRow nnodes) },
   st.buf.newV.enum.map fun p => (p.2.1, p.2.2, nnodes + p.1))

/- ### Element subdivision (Refine::refine, lines 403-640) -/

/-- The first-argument/second-argument choice for the first diagonal length in
the 2D two-split branch: `lnn2gnn[vertexID[0]] < lnn2gnn[rotated_ele[1]]`
decides which endpoint is passed first to `calc_edge_length`. -/
def diag0Pair (gnn : Nat → Int) (v0 r1 : Nat) : Nat × Nat :=
  if gnn v0 < gnn r1 then (v0, r1) else (r1, v0)

/-- The argument choice for the second diagonal length, exactly as written in
the source: the comparison `lnn2gnn[vertexID[1]] < rotated_ele[2]` reads the raw
LID `rotated_ele[2]`, not its GID. -/
def diag1Pair (gnn : Nat → Int) (v1 r2 : Nat) : Nat × Nat :=
  if gnn v1 < (r2 : Int) then (v1, r2) else (r2, v1)

/-- The diagonal selection of line 475: `offset = ldiag0 < ldiag1 ? 0 : 1`. -/
def c2Offset (ld0 ld1 : ℚ) : Nat :=
  if ld0 < ld1 then 0 else 1

/-- Subdivision of one 2D element: returns the child triangles (in emission
order) and whether the parent is erased.  A split count of `0` skips the element
before `erase_element`. -/
def refine2DElement (gnn : Nat → Int) (nnl : List (List Nat))
    (re : List (List Int)) (cl : Nat → Nat → ℚ) (n : List Int) :
    List (List Int) × Bool :=
  if n.getD 0 0 < 0 then ([], false) else
  let m0 := (n.getD 0 0).toNat
  let m1 := (n.getD 1 0).toNat
  let m2 := (n.getD 2 0).toNat
  let nv : List Int :=
    [get_new_vertex gnn nnl re m1 m2, get_new_vertex gnn nnl re m2 m0,
     get_new_vertex gnn nnl re m0 m1]
  let cnt := (nv.filter fun v => 0 ≤ v).length
  if cnt = 0 then ([], false)
  else if cnt = 1 then
    let j := nv.findIdx fun v => 0 ≤ v
    let vid := nv.getD j (-1)
    let r := [n.getD (j % 3) 0, n.getD ((j + 1) % 3) 0, n.getD ((j + 2) % 3) 0]
    ([[r.getD 0 0, r.getD 1 0, vid], [r.getD 0 0, vid, r.getD 2 0]], true)
  else if cnt = 2 then
    let j := nv.findIdx fun v => v < 0
    let v0 := nv.getD ((j + 1) % 3) (-1)
    let v1 := nv.getD ((j + 2) % 3) (-1)
    let r := [n.getD (j % 3) 0, n.getD ((j + 1) % 3) 0, n.getD ((j + 2) % 3) 0]
    let d0 := diag0Pair gnn v0.toNat (r.getD 1 0).toNat
    let d1 := diag1Pair gnn v1.toNat (r.getD 2 0).toNat
    let off := c2Offset (cl d0.1 d0.2) (cl d1.1 d1.2)
    ([[r.getD 0 0, v1, v0],
      [if off = 0 then v0 else v1, r.getD 1 0, r.getD 2 0],
      [v0, v1, r.getD (off + 1) 0]], true)
  else
    ([[n.getD 0 0, nv.getD 2 (-1), nv.getD 1 (-1)],
      [n.getD 1 0, nv.getD 0 (-1), nv.getD 2 (-1)],
      [n.getD 2 0, nv.getD 1 (-1), nv.getD 0 (-1)],
      [nv.getD 0 (-1), nv.getD 1 (-1), nv.getD 2 (-1)]], true)

/-- The split-edge record of a 3D element: the new-vertex ids and the split
edges, in nested-loop order. -/
def tetSplits (gnn : Nat → Int) (nnl : List (List Nat)) (re : List (List Int))
    (n : List Int) : List (Int × UEdge) :=
  (idxPairs 4).filterMap fun jk =>
    let a := (n.getD jk.1 0).toNat
    let b := (n.getD jk.2 0).toNat
    let v := get_new_vertex gnn nnl re a b
    if 0 ≤ v then some (v, mkEdge a b) else none

/-- Subdivision of one 3D element: the templates for split counts 1, 2, 3 and 6.
Any other non-zero split count (4 or 5) falls through the if-chain with no
children emitted, yet the parent is still erased — the source has no branch and
no error report for it. -/
def refine3DElement (gnn : Nat → Int) (nnl : List (List Nat))
    (re : List (List Int)) (n : List Int) : List (List Int) × Bool :=
  if n.getD 0 0 < 0 then ([], false) else
  let q := tetSplits gnn nnl re n
  let nv : List Int := q.map (·.1)
  let se : List UEdge := q.map (·.2)
  let d : UEdge := ⟨0, 0⟩
  if q.length = 0 then ([], false)
  else if q.length = 1 then
    let e := se.getD 0 d
    let oe := (List.range 4).filterMap fun j =>
      let x := (n.getD j 0).toNat
      if e.hasVertex x then none else some x
    ([[(e.lo : Int), nv.getD 0 (-1), (oe.getD 0 0 : Int), (oe.getD 1 0 : Int)],
      [(e.hi : Int), nv.getD 0 (-1), (oe.getD 0 0 : Int), (oe.getD 1 0 : Int)]],
     true)
  else if q.length = 2 then
    let e0 := se.getD 0 d
    let e1 := se.getD 1 d
    ([[(e0.lo : Int), nv.getD 0 (-1), (e1.lo : Int), nv.getD 1 (-1)],
      [(e0.lo : Int), nv.getD 0 (-1), (e1.hi : Int), nv.getD 1 (-1)],
      [(e0.hi : Int), nv.getD 0 (-1), (e1.lo : Int), nv.getD 1 (-1)],
      [(e0.hi : Int), nv.getD 0 (-1), (e1.hi : Int), nv.getD 1 (-1)]], true)
  else if q.length = 3 then
    let e0 := se.getD 0 d
    let e1 := se.getD 1 d
    let e2 := se.getD 2 d
    let w0 : Int := (e0.lo : Int)
    let w1 := nv.getD 0 (-1)
    let w2 : Int := (e0.hi : Int)
    let w3 := if e1.hasVertex e0.hi then nv.getD 1 (-1) else nv.getD 2 (-1)
    let w4 : Int :=
      if e1.hasVertex e0.hi then
        (if e1.lo ≠ e0.hi then (e1.lo : Int) else (e1.hi : Int))
      else
        (if e2.lo ≠ e0.hi then (e2.lo : Int) else (e2.hi : Int))
    let w5 := if e1.hasVertex e0.hi then nv.getD 2 (-1) else nv.getD 1 (-1)
    let jw := (List.range 4).findIdx fun j =>
      n.getD j 0 ≠ w0 ∧ n.getD j 0 ≠ w2 ∧ n.getD j 0 ≠ w4
    let w6 := n.getD jw 0
    ([[w0, w1, w5, w6], [w1, w2, w3, w6], [w5, w3, w4, w6], [w1, w3, w5, w6]],
     true)
  else if q.length = 6 then
    ([[n.getD 0 0, nv.getD 0 (-1), nv.getD 1 (-1), nv.getD 2 (-1)],
      [n.getD 1 0, nv.getD 3 (-1), nv.getD 0 (-1), nv.getD 4 (-1)],
      [n.getD 2 0, nv.getD 1 (-1), nv.getD 3 (-1), nv.getD 5 (-1)],
      [nv.getD 0 (-1), nv.getD 3 (-1), nv.getD 1 (-1), nv.getD 4 (-1)],
      [nv.getD 0 (-1), nv.getD 4 (-1), nv.getD 1 (-1), nv.getD 2 (-1)],
      [nv.getD 1 (-1), nv.getD 3 (-1), nv.getD 5 (-1), nv.getD 4 (-1)],
      [nv.getD 1 (-1), nv.getD 4 (-1), nv.getD 5 (-1), nv.getD 2 (-1)],
      [nv.getD 2 (-1), nv.getD 4 (-1), nv.getD 5 (-1), n.getD 3 0]], true)
  else ([], true)

/-- Modelled from the spec: `Mesh::erase_element(i)` (not under `src/`) marks an
element erased by setting its first LID to a negative sentinel. -/
def erase_elem (en : List Int) (nloc i : Nat) : List Int :=
  en.set (nloc * i) (-1)

/-- The element-refinement pass: per element, apply the dimension's template,
collect the children in a producer buffer and erase replaced parents; the
prefix-sum append becomes concatenation at one worker. -/
def subdividePass (ndims : Nat) (gnn : Nat → Int) (nnl : List (List Nat))
    (re : List (List Int)) (cl : Nat → Nat → ℚ) (en : List Int) : List Int :=
  let nloc := if ndims = 2 then 3 else 4
  let p := (List.range (en.length / nloc)).foldl
    (fun (acc : List Int × List Int) i =>
      let n := readElem en nloc i
      let r := if ndims = 2 then refine2DElement gnn nnl re cl n
               else refine3DElement gnn nnl re n
      if r.2 then (erase_elem acc.1 nloc i, acc.2 ++ r.1.flatten)
      else acc)
    (en, [])
  p.1 ++ p.2

/- ### Ownership of new vertices (Refine::refine, lines 645-743) -/

/-- The new-vertex ownership assignment of lines 650-661: for each staged vertex
`(gid_lo, gid_hi, lid)`, the owner of `lid` becomes the minimum of the owners of
the two endpoints (looked up through `gnn2lnn`). -/
def assignNewOwners (owner : List Int) (g2l : Int → Nat)
    (verts : List (Int × Int × Nat)) : List Int :=
  verts.foldl
    (fun ow v =>
      ow.set v.2.2 (min (ow.getD (g2l v.1) 0) (ow.getD (g2l v.2.1) 0)))
    owner

/-- The ownership phase as gated in the source: the whole block runs only when
`nprocs > 1`; in a serial run the new vertices keep the `-1` fill value given to
them by the `node_owner.resize(newSize, -1)` of line 381. -/
def ownerPhase (nprocs : Nat) (owner : List Int) (g2l : Int → Nat)
    (verts : List (Int × Int × Nat)) : List Int :=
  if 1 < nprocs then assignNewOwners owner g2l verts else owner

/- ### The refinement driver (serial schedule) -/

/-- One level of refinement, `Refine::refine(L_max)`, at one worker and one rank
(the halo rebuild, the vacuous reorientation loop, the surface delegate and the
adjacency rebuild — the parts the idempotence claim excludes or that touch
external MPI state — are not part of the returned mesh state). -/
def refineModel (ndims nprocs : Nat) (gnn : Nat → Int) (g2l : Int → Nat)
    (nnl : List (List Nat)) (cl : Nat → Nat → ℚ) (iC iM : Nat → Nat → List ℚ)
    (Lmax : ℚ) (ms : MeshState) : MeshState :=
  let nnodes := nnl.length
  let sel := selectPass gnn nnl cl Lmax iC iM
  let fuel := (nnl.map List.length).sum + 1
  let st := if ndims = 3 then propLoop gnn nnl iC iM ms.en fuel sel else sel
  let ins := insertPhase nnodes ms st
  let ms2 := ins.1
  let st2 := ins.2.1
  let verts := ins.2.2
  let en2 := subdividePass ndims gnn nnl st2.re cl ms2.en
  { ms2 with en := en2, owner := ownerPhase nprocs ms2.owner g2l verts }

/- ### Claim C2: illegal 3D split patterns at subdivision -/

/-- A `refined_edges` state staging new vertices (LIDs 4, 5, 6, 7) on the four
tetrahedron edges `(0,1), (0,2), (0,3), (1,2)` — a split pattern outside the
legal template set. -/
def reFour : List (List Int) :=
  [[4, 0, 5, 0, 6, 0], [-1, -1, 7, 0, -1, -1],
   [-1, -1, -1, -1, -1, -1], [-1, -1, -1, -1, -1, -1]]

/-- Claim C2: refuted by the code.  A 3D element reaching subdivision with a
split count of 4 falls through the template if-chain: no `InvariantViolation` is
reported (the model's result type carries no error channel, matching the
source), no children are emitted, and the parent element is still erased. -/
theorem subdivision_cnt4_silently_erased :
    (tetSplits gnnId nnlTet reFour [0, 1, 2, 3]).length = 4 ∧
    refine3DElement gnnId nnlTet reFour [0, 1, 2, 3] = ([], true) := by
  decide

/- ### Claims C5 and C6: the 2D two-split diagonal choice -/

/-- Full adjacency of the single triangle `0 1 2`. -/
def nnlTri : List (List Nat) := [[1, 2], [0, 2], [0, 1]]

/-- A `refined_edges` state for the triangle with new vertices on edges `(1,2)`
(LID 3) and `(0,2)` (LID 4); edge `(0,1)` is unsplit, so the two-split template
applies with `vertexID = [3, 4]` and `rotated_ele = [2, 0, 1]`. -/
def reTri : List (List Int) := [[-1, -1, 4, 0], [-1, -1, 3, 0], [-1, -1, -1, -1]]

/-- Equal metric lengths for the two diagonals `(0,3)` and `(1,4)` of the
two-split quadrilateral; all other queries return 1. -/
def clTriEq : Nat → Nat → ℚ := fun a b =>
  if (a, b) = (0, 3) ∨ (a, b) = (1, 4) then 5 else 1

/-- Counterexample to claim C5: with the two diagonal lengths equal, the
two-split template emits `{vertexID[1], n1, n2}` as its middle child — the
second diagonal (`v2` to `n2`, offset 1) is used, not the first diagonal
(offset 0, which would put `vertexID[0] = 3` there). -/
theorem c2_equal_lengths_counterexample :
    clTriEq 0 3 = clTriEq 1 4 ∧
    refine2DElement gnnId nnlTri reTri clTriEq [0, 1, 2] =
      ([[2, 4, 3], [4, 0, 1], [3, 4, 1]], true) ∧
    ((refine2DElement gnnId nnlTri reTri clTriEq [0, 1, 2]).1.getD 1 []).getD 0 0
      = 4 ∧ (4 : Int) ≠ 3 := by
  decide

/-- Claim C5 as amended: the diagonal is chosen by strict-less-than on the two
metric lengths (`offset = ldiag0 < ldiag1 ? 0 : 1`), and when the lengths are
equal the second diagonal (offset 1, `v2` to `n2`) is chosen: for every length
primitive giving the two diagonals equal lengths, the emitted children are the
offset-1 triangulation. -/
theorem c2_tie_picks_second_diagonal (cl : Nat → Nat → ℚ)
    (h : cl 0 3 = cl 1 4) :
    refine2DElement gnnId nnlTri reTri cl [0, 1, 2] =
      ([[2, 4, 3], [4, 0, 1], [3, 4, 1]], true) := by
  have base : refine2DElement gnnId nnlTri reTri cl [0, 1, 2] =
      ([[2, 4, 3],
        [if c2Offset (cl 0 3) (cl 1 4) = 0 then (3 : Int) else 4, 0, 1],
        [3, 4, [(2 : Int), 0, 1].getD (c2Offset (cl 0 3) (cl 1 4) + 1) 0]],
       true) := rfl
  have hoff : c2Offset (cl 0 3) (cl 1 4) = 1 := by
    rw [h]; simp [c2Offset]
  rw [base, hoff]
  decide

/-- Witness for the amended C5 at the concrete equal-length primitive. -/
theorem c2_tie_picks_second_diagonal_witness :
    clTriEq 0 3 = clTriEq 1 4 ∧
    refine2DElement gnnId nnlTri reTri clTriEq [0, 1, 2] =
      ([[2, 4, 3], [4, 0, 1], [3, 4, 1]], true) :=
  ⟨by decide, c2_tie_picks_second_diagonal clTriEq (by decide)⟩

/-- A global numbering in which LID 4 is a ghost vertex with GID 0 while LID 3
has GID 3 (multi-partition numbering need not be monotone in LIDs). -/
def gnnGhost : Nat → Int := fun x => if x = 4 then 0 else (x : Int)

/-- Claim C6: refuted by the code.  The second diagonal-length comparison reads
`lnn2gnn[vertexID[1]] < rotated_ele[2]` — a GID compared against a raw LID.
With `vertexID[1] = 3` and `rotated_ele[2] = 4` under `gnnGhost`, the length
primitive receives the endpoint with the *higher* GID first (`diag1Pair` yields
`(3, 4)` although `gnn 4 < gnn 3`), while the first diagonal's GID-based
comparison orders the same endpoints correctly. -/
theorem diag1_uses_lid_not_gid :
    diag1Pair gnnGhost 3 4 = (3, 4) ∧ gnnGhost 4 < gnnGhost 3 ∧
    diag0Pair gnnGhost 3 4 = (4, 3) := by
  decide

/- ### The numeric body of Refine::refine_edge (lines 782-819) -/

/-- Output of `Refine::refine_edge`: the directed GID pair pushed to
`newVertices`, the appended coordinates and metric entries, and the number of
metric entries the `isnan` guard flagged to `std::cerr` (the source prints a
diagnostic per bad entry and keeps going). -/
structure EdgeSplit (α : Type) where
  gids : Int × Int
  xs : List α
  ms : List α
  nanReports : Nat
deriving DecidableEq, Repr

/-- `Refine::refine_edge` over an ordered field: swap the endpoints so the
lesser GID comes first, push the directed GID pair, compute the weight
`1/(1 + sqrt(L(x0,x1,m0)/L(x0,x1,m1)))`, and append the interpolated
coordinates and metric; each metric entry is tested by the (external) `isnan`
predicate, which only produces a diagnostic count.  `sq` models `sqrt` and
`len` the external `ElementProperty::length`. -/
def refine_edge {α : Type} [LinearOrderedField α] (sq : α → α)
    (isb : α → Bool) (gnn : Nat → Int) (X M : Nat → List α)
    (len : List α → List α → List α → α) (ndims n0 n1 : Nat) : EdgeSplit α :=
  let a := if gnn n0 > gnn n1 then n1 else n0
  let b := if gnn n0 > gnn n1 then n0 else n1
  let x0 := X a
  let m0 := M a
  let x1 := X b
  let m1 := M b
  let w := 1 / (1 + sq (len x0 x1 m0 / len x0 x1 m1))
  let xs := (List.range ndims).map fun i =>
    x0.getD i 0 + w * (x1.getD i 0 - x0.getD i 0)
  let ms := (List.range (ndims * ndims)).map fun i =>
    m0.getD i 0 + w * (m1.getD i 0 - m0.getD i 0)
  { gids := (gnn a, gnn b), xs := xs, ms := ms,
    nanReports := (ms.filter isb).length }

/-- The endpoint of an edge with the lower GID. -/
def lowEnd (gnn : Nat → Int) (n0 n1 : Nat) : Nat :=
  if gnn n0 < gnn n1 then n0 else n1

/-- The endpoint of an edge with the higher GID. -/
def hiEnd (gnn : Nat → Int) (n0 n1 : Nat) : Nat :=
  if gnn n0 < gnn n1 then n1 else n0

/-- The weight of the spec's section 4.2, written from the spec's words with
`x0, m0` taken at the lower-GID endpoint:
`w = 1 / (1 + sqrt(L(x0,x1,m0) / L(x0,x1,m1)))`. -/
noncomputable def interpW (gnn : Nat → Int) (X M : Nat → List ℝ)
    (len : List ℝ → List ℝ → List ℝ → ℝ) (n0 n1 : Nat) : ℝ :=
  1 / (1 + Real.sqrt
    (len (X (lowEnd gnn n0 n1)) (X (hiEnd gnn n0 n1)) (M (lowEnd gnn n0 n1)) /
     len (X (lowEnd gnn n0 n1)) (X (hiEnd gnn n0 n1)) (M (hiEnd gnn n0 n1))))

theorem getD_range_map {α : Type} (f : Nat → α) (d : α) {i n : Nat}
    (h : i < n) : ((List.range n).map f).getD i d = f i := by
  rw [List.getD_eq_getElem?_getD, List.getElem?_map, List.getElem?_range h]
  rfl

/-- Claim C7: for every tentative new vertex, with `x0, m0` at the lower-GID
endpoint and `x1, m1` at the other, and `w` the weight of the spec (embedded as
`interpW`), every appended coordinate equals `x0[i] + w*(x1[i] - x0[i])` and
every appended metric entry equals `m0[i] + w*(m1[i] - m0[i])`, over all `d`
coordinates and `d*d` metric entries. -/
theorem refine_edge_interpolation_formula (gnn : Nat → Int)
    (X M : Nat → List ℝ) (len : List ℝ → List ℝ → List ℝ → ℝ)
    (isb : ℝ → Bool) (ndims n0 n1 : Nat) (h : gnn n0 ≠ gnn n1) :
    (∀ i, i < ndims →
      (refine_edge Real.sqrt isb gnn X M len ndims n0 n1).xs.getD i 0 =
        (X (lowEnd gnn n0 n1)).getD i 0 + interpW gnn X M len n0 n1 *
          ((X (hiEnd gnn n0 n1)).getD i 0 - (X (lowEnd gnn n0 n1)).getD i 0)) ∧
    (∀ i, i < ndims * ndims →
      (refine_edge Real.sqrt isb gnn X M len ndims n0 n1).ms.getD i 0 =
        (M (lowEnd gnn n0 n1)).getD i 0 + interpW gnn X M len n0 n1 *
          ((M (hiEnd gnn n0 n1)).getD i 0 - (M (lowEnd gnn n0 n1)).getD i 0)) := by
  rcases lt_or_gt_of_ne h with hlt | hgt
  · have hno : ¬gnn n0 > gnn n1 := not_lt.mpr (le_of_lt hlt)
    have hl : lowEnd gnn n0 n1 = n0 := if_pos hlt
    have hh : hiEnd gnn n0 n1 = n1 := if_pos hlt
    constructor
    · intro i hi
      simp only [refine_edge, hno, if_false, hl, hh, getD_range_map _ _ hi,
        interpW]
    · intro i hi
      simp only [refine_edge, hno, if_false, hl, hh, getD_range_map _ _ hi,
        interpW]
  · have hyes : gnn n0 > gnn n1 := hgt
    have hnlt : ¬gnn n0 < gnn n1 := not_lt.mpr (le_of_lt hgt)
    have hl : lowEnd gnn n0 n1 = n1 := if_neg hnlt
    have hh : hiEnd gnn n0 n1 = n0 := if_neg hnlt
    constructor
    · intro i hi
      simp only [refine_edge, hyes, if_true, hl, hh, getD_range_map _ _ hi,
        interpW]
    · intro i hi
      simp only [refine_edge, hyes, if_true, hl, hh, getD_range_map _ _ hi,
        interpW]

/-- Witness for C7 at a concrete edge (2D, identity numbering). -/
theorem refine_edge_interpolation_formula_witness :
    gnnId 0 ≠ gnnId 1 ∧
    (refine_edge Real.sqrt (fun _ => false) gnnId (fun i => [(i : ℝ), 0])
        (fun _ => [1, 0, 0, 1]) (fun _ _ _ => 1) 2 0 1).xs.getD 0 0 =
      ((fun i => [(i : ℝ), 0]) (lowEnd gnnId 0 1)).getD 0 0 +
        interpW gnnId (fun i => [(i : ℝ), 0]) (fun _ => [1, 0, 0, 1])
            (fun _ _ _ => 1) 0 1 *
          (((fun i => [(i : ℝ), 0]) (hiEnd gnnId 0 1)).getD 0 0 -
            ((fun i => [(i : ℝ), 0]) (lowEnd gnnId 0 1)).getD 0 0) :=
  ⟨by decide,
   (refine_edge_interpolation_formula gnnId (fun i => [(i : ℝ), 0])
      (fun _ => [1, 0, 0, 1]) (fun _ _ _ => 1) (fun _ => false) 2 0 1
      (by decide)).1 0 (by norm_num)⟩

/- ### Claim C3: NaN in the interpolated metric -/

/-- A stand-in malform detector over `ℚ`: flags the value 9 (the external
`isnan` is a primitive of the arithmetic type). -/
def isbNine : ℚ → Bool := fun m => m == 9

/-- Counterexample to claim C3: with the detector flagging the (constant)
interpolated metric entry, `refine_edge` still returns the complete output — the
flagged value is appended to the metric buffer and only a diagnostic count is
produced; nothing fails and no error reaches the caller (the result type has no
error channel, matching the source, which streams to `std::cerr` and keeps
going). -/
theorem refine_edge_nan_counterexample :
    (refine_edge id isbNine gnnId (fun i => [(i : ℚ)]) (fun _ => [9])
      (fun _ _ _ => 1) 1 0 1).nanReports = 1 ∧
    (refine_edge id isbNine gnnId (fun i => [(i : ℚ)]) (fun _ => [9])
      (fun _ _ _ => 1) 1 0 1).ms = [9] ∧
    (refine_edge id isbNine gnnId (fun i => [(i : ℚ)]) (fun _ => [9])
      (fun _ _ _ => 1) 1 0 1).xs.length = 1 := by
  have hr1 : List.range 1 = [0] := rfl
  refine ⟨?_, ?_, ?_⟩ <;>
    simp [refine_edge, isbNine, hr1, sub_self, mul_zero, add_zero, List.filter]

/-- Claim C3 as amended: a flagged (non-finite) interpolated metric entry does
not abort refinement — `refine_edge` returns normally with the full coordinate
and metric output, the flagged entry still sits in the appended metric, and the
only trace is a positive diagnostic count. -/
theorem refine_edge_continues_after_nan {α : Type} [LinearOrderedField α]
    (sq : α → α) (isb : α → Bool) (gnn : Nat → Int) (X M : Nat → List α)
    (len : List α → List α → List α → α) (ndims n0 n1 i : Nat)
    (hi : i < ndims * ndims)
    (hflag : isb ((refine_edge sq isb gnn X M len ndims n0 n1).ms.getD i 0)
      = true) :
    (refine_edge sq isb gnn X M len ndims n0 n1).ms.length = ndims * ndims ∧
    (refine_edge sq isb gnn X M len ndims n0 n1).xs.length = ndims ∧
    1 ≤ (refine_edge sq isb gnn X M len ndims n0 n1).nanReports := by
  refine ⟨by simp [refine_edge], by simp [refine_edge], ?_⟩
  have hlen : (refine_edge sq isb gnn X M len ndims n0 n1).ms.length =
      ndims * ndims := by simp [refine_edge]
  have hmem : (refine_edge sq isb gnn X M len ndims n0 n1).ms.getD i 0 ∈
      (refine_edge sq isb gnn X M len ndims n0 n1).ms := by
    have hi' : i < (refine_edge sq isb gnn X M len ndims n0 n1).ms.length := by
      rw [hlen]; exact hi
    rw [List.getD_eq_getElem?_getD, List.getElem?_eq_getElem hi']
    exact List.getElem_mem hi'
  have hfil : (refine_edge sq isb gnn X M len ndims n0 n1).ms.getD i 0 ∈
      (refine_edge sq isb gnn X M len ndims n0 n1).ms.filter isb :=
    List.mem_filter.mpr ⟨hmem, hflag⟩
  have hrep : (refine_edge sq isb gnn X M len ndims n0 n1).nanReports =
      ((refine_edge sq isb gnn X M len ndims n0 n1).ms.filter isb).length := by
    simp [refine_edge]
  rw [hrep]
  exact Nat.succ_le_of_lt (List.length_pos_of_mem hfil)

/-- Witness for the amended C3 at the concrete flagged instance. -/
theorem refine_edge_continues_after_nan_witness :
    (0 : Nat) < 1 * 1 ∧
    isbNine ((refine_edge id isbNine gnnId (fun i => [(i : ℚ)]) (fun _ => [9])
      (fun _ _ _ => 1) 1 0 1).ms.getD 0 0) = true ∧
    1 ≤ (refine_edge id isbNine gnnId (fun i => [(i : ℚ)]) (fun _ => [9])
      (fun _ _ _ => 1) 1 0 1).nanReports :=
  ⟨by decide, by simp [refine_edge, isbNine],
   (refine_edge_continues_after_nan id isbNine gnnId (fun i => [(i : ℚ)])
      (fun _ => [9]) (fun _ _ _ => 1) 1 0 1 0 (by decide)
      (by simp [refine_edge, isbNine])).2.2⟩

/- ### Claim C8: ownership of new vertices -/

theorem getD_set_ne_int (l : List Int) (i j : Nat) (a d : Int) (h : i ≠ j) :
    (l.set i a).getD j d = l.getD j d := by
  rw [List.getD_eq_getElem?_getD, List.getD_eq_getElem?_getD,
    List.getElem?_set_ne h]

theorem getD_set_self_int (l : List Int) (i : Nat) (a d : Int)
    (h : i < l.length) : (l.set i a).getD i d = a := by
  rw [List.getD_eq_getElem?_getD, List.getElem?_set_eq_of_lt a h]
  rfl

theorem assignNewOwners_untouched (g2l : Int → Nat) :
    ∀ (verts : List (Int × Int × Nat)) (ow : List Int) (j : Nat),
      (∀ v ∈ verts, v.2.2 ≠ j) →
      (assignNewOwners ow g2l verts).getD j 0 = ow.getD j 0 := by
  intro verts
  induction verts with
  | nil => intro ow j _; rfl
  | cons u t ih =>
    intro ow j h
    have hstep : assignNewOwners ow g2l (u :: t) =
        assignNewOwners
          (ow.set u.2.2 (min (ow.getD (g2l u.1) 0) (ow.getD (g2l u.2.1) 0)))
          g2l t := rfl
    rw [hstep, ih _ j (fun v hv => h v (List.mem_cons_of_mem u hv)),
      getD_set_ne_int _ _ _ _ _ (h u (List.mem_cons_self u t))]

theorem assignNewOwners_spec (g2l : Int → Nat) (origN : Nat) :
    ∀ (verts : List (Int × Int × Nat)) (ow : List Int),
      (∀ v ∈ verts, g2l v.1 < origN ∧ g2l v.2.1 < origN) →
      (∀ v ∈ verts, origN ≤ v.2.2 ∧ v.2.2 < ow.length) →
      (verts.map fun v => v.2.2).Nodup →
      ∀ v ∈ verts, (assignNewOwners ow g2l verts).getD v.2.2 0 =
        min (ow.getD (g2l v.1) 0) (ow.getD (g2l v.2.1) 0) := by
  intro verts
  induction verts with
  | nil => intro ow _ _ _ v hv; cases hv
  | cons u t ih =>
    intro ow hg hn hd v hv
    have hstep : assignNewOwners ow g2l (u :: t) =
        assignNewOwners
          (ow.set u.2.2 (min (ow.getD (g2l u.1) 0) (ow.getD (g2l u.2.1) 0)))
          g2l t := rfl
    have hdt : (t.map fun v => v.2.2).Nodup := (List.nodup_cons.mp hd).2
    have hhead : u.2.2 ∉ t.map fun v => v.2.2 := (List.nodup_cons.mp hd).1
    rcases List.mem_cons.mp hv with rfl | hvt
    · rw [hstep, assignNewOwners_untouched g2l t _ v.2.2
        (fun w hw hwv => hhead (hwv ▸ List.mem_map_of_mem _ hw)),
        getD_set_self_int _ _ _ _ (hn v (List.mem_cons_self v t)).2]
    · have hne0 : u.2.2 ≠ g2l v.1 := by
        have h1 := (hg v (List.mem_cons_of_mem u hvt)).1
        have h2 := (hn u (List.mem_cons_self u t)).1
        omega
      have hne1 : u.2.2 ≠ g2l v.2.1 := by
        have h1 := (hg v (List.mem_cons_of_mem u hvt)).2
        have h2 := (hn u (List.mem_cons_self u t)).1
        omega
      rw [hstep, ih _ (fun w hw => hg w (List.mem_cons_of_mem u hw))
        (fun w hw => ⟨(hn w (List.mem_cons_of_mem u hw)).1, by
          rw [List.length_set]
          exact (hn w (List.mem_cons_of_mem u hw)).2⟩) hdt v hvt,
        getD_set_ne_int _ _ _ _ _ hne0, getD_set_ne_int _ _ _ _ _ hne1]

/-- Claim C8 as amended: in a multi-partition run (`nprocs > 1`), for every new
vertex staged on edge `(a, b)` the recorded owner is `min(owner(a), owner(b))`
(endpoint owners looked up through `gnn2lnn` into the original part of the
owner array); in a serial run the whole block is skipped and new vertices keep
the `-1` resize fill, so the claimed equation fails there. -/
theorem owners_min_when_parallel (nprocs : Nat) (hp : 1 < nprocs)
    (ow : List Int) (g2l : Int → Nat) (verts : List (Int × Int × Nat))
    (origN : Nat)
    (hg : ∀ v ∈ verts, g2l v.1 < origN ∧ g2l v.2.1 < origN)
    (hn : ∀ v ∈ verts, origN ≤ v.2.2 ∧ v.2.2 < ow.length)
    (hd : (verts.map fun v => v.2.2).Nodup) :
    ∀ v ∈ verts, (ownerPhase nprocs ow g2l verts).getD v.2.2 0 =
      min (ow.getD (g2l v.1) 0) (ow.getD (g2l v.2.1) 0) := by
  intro v hv
  rw [ownerPhase, if_pos hp]
  exact assignNewOwners_spec g2l origN verts ow hg hn hd v hv

/-- Witness for the amended C8: two ranks, one new vertex on the halo edge. -/
theorem owners_min_when_parallel_witness :
    (1 : Nat) < 2 ∧
    (ownerPhase 2 [0, 1, -1] Int.toNat [((0 : Int), (1 : Int), (2 : Nat))]).getD
      2 0 = min (0 : Int) 1 :=
  ⟨by decide,
   owners_min_when_parallel 2 (by decide) [0, 1, -1] Int.toNat
     [((0 : Int), (1 : Int), (2 : Nat))] 2 (by decide) (by decide) (by decide)
     ((0 : Int), (1 : Int), (2 : Nat)) (by decide)⟩

/- ### Concrete serial 2D input: one triangle with one long edge -/

/-- Metric edge lengths on the triangle: edge `(1,2)` has length 2, the other
two length 1. -/
def clTri : Nat → Nat → ℚ := fun a b => if (a, b) = (1, 2) then 2 else 1

/-- Placeholder interpolated coordinates for staged vertices (2 components). -/
def iCTri : Nat → Nat → List ℚ := fun _ _ => [1, 1]

/-- Placeholder interpolated metric for staged vertices (4 components). -/
def iMTri : Nat → Nat → List ℚ := fun _ _ => [1, 0, 0, 1]

/-- The triangle mesh `0 1 2` with identity metric, all vertices owned by rank
0. -/
def msTri : MeshState :=
  { coords := [0, 0, 1, 0, 0, 1],
    metric := [1, 0, 0, 1, 1, 0, 0, 1, 1, 0, 0, 1],
    en := [0, 1, 2],
    owner := [0, 0, 0] }

/-- Counterexample to claim C8: in a serial run (`nprocs = 1`) of the driver on
the triangle with only edge `(1,2)` long, the new vertex (LID 3) keeps the `-1`
fill given by `node_owner.resize(newSize, -1)` — the ownership block is inside
`if(nprocs>1)` — while `min(owner(1), owner(2)) = 0`. -/
theorem serial_owner_is_minus_one :
    (refineModel 2 1 gnnId Int.toNat nnlTri clTri iCTri iMTri 1 msTri).owner.getD
      3 99 = -1 ∧
    min (msTri.owner.getD 1 99) (msTri.owner.getD 2 99) = 0 ∧
    (-1 : Int) ≠ 0 := by
  decide

/- ### Claim C4: no validation of L_max -/

theorem selStep_cnt_eq_or_id (gnn : Nat → Int) (nnl : List (List Nat))
    (cl : Nat → Nat → ℚ) (Lmax : ℚ) (iC iM : Nat → Nat → List ℚ) (i : Nat)
    (p : List Int × Buffers) (it : Nat) :
    (selStep gnn nnl cl Lmax iC iM i p it).2.cnt = p.2.cnt + 1 ∨
      selStep gnn nnl cl Lmax iC iM i p it = p := by
  by_cases h : gnn i < gnn ((nnl.getD i []).getD it 0) ∧
      Lmax < cl i ((nnl.getD i []).getD it 0)
  · left
    unfold selStep
    rw [if_pos h]
    rfl
  · right
    unfold selStep
    rw [if_neg h]

theorem selStep_cnt_le (gnn : Nat → Int) (nnl : List (List Nat))
    (cl : Nat → Nat → ℚ) (Lmax : ℚ) (iC iM : Nat → Nat → List ℚ) (i : Nat)
    (p : List Int × Buffers) (it : Nat) :
    p.2.cnt ≤ (selStep gnn nnl cl Lmax iC iM i p it).2.cnt := by
  rcases selStep_cnt_eq_or_id gnn nnl cl Lmax iC iM i p it with h | h
  · omega
  · rw [h]

theorem foldl_selStep_cnt_le (gnn : Nat → Int) (nnl : List (List Nat))
    (cl : Nat → Nat → ℚ) (Lmax : ℚ) (iC iM : Nat → Nat → List ℚ) (i : Nat) :
    ∀ (l : List Nat) (p : List Int × Buffers),
      p.2.cnt ≤ (l.foldl (selStep gnn nnl cl Lmax iC iM i) p).2.cnt := by
  intro l
  induction l with
  | nil => intro p; exact le_refl _
  | cons a t ih =>
    intro p
    exact le_trans (selStep_cnt_le gnn nnl cl Lmax iC iM i p a) (ih _)

theorem foldl_selStep_cnt_strict (gnn : Nat → Int) (nnl : List (List Nat))
    (cl : Nat → Nat → ℚ) (Lmax : ℚ) (iC iM : Nat → Nat → List ℚ) (i : Nat)
    (it : Nat)
    (hcond : gnn i < gnn ((nnl.getD i []).getD it 0) ∧
      Lmax < cl i ((nnl.getD i []).getD it 0)) :
    ∀ (l : List Nat) (p : List Int × Buffers), it ∈ l →
      p.2.cnt < (l.foldl (selStep gnn nnl cl Lmax iC iM i) p).2.cnt := by
  intro l
  induction l with
  | nil => intro p hm; cases hm
  | cons a t ih =>
    intro p hm
    rcases List.mem_cons.mp hm with rfl | hmt
    · have hstep : (selStep gnn nnl cl Lmax iC iM i p it).2.cnt =
          p.2.cnt + 1 := by
        unfold selStep
        rw [if_pos hcond]
        rfl
      calc p.2.cnt < p.2.cnt + 1 := Nat.lt_succ_self _
        _ = (selStep gnn nnl cl Lmax iC iM i p it).2.cnt := hstep.symm
        _ ≤ _ := foldl_selStep_cnt_le gnn nnl cl Lmax iC iM i t _
    · exact lt_of_le_of_lt (selStep_cnt_le gnn nnl cl Lmax iC iM i p a)
        (ih _ hmt)

theorem selVertex_cnt_le (gnn : Nat → Int) (nnl : List (List Nat))
    (cl : Nat → Nat → ℚ) (Lmax : ℚ) (iC iM : Nat → Nat → List ℚ)
    (st : SelState) (i : Nat) :
    st.buf.cnt ≤ (selVertex gnn nnl cl Lmax iC iM st i).buf.cnt := by
  unfold selVertex
  exact foldl_selStep_cnt_le gnn nnl cl Lmax iC iM i
    (List.range (nnl.getD i []).length)
    (List.replicate (2 * (nnl.getD i []).length) (-1), st.buf)

theorem foldl_selVertex_cnt_le (gnn : Nat → Int) (nnl : List (List Nat))
    (cl : Nat → Nat → ℚ) (Lmax : ℚ) (iC iM : Nat → Nat → List ℚ) :
    ∀ (l : List Nat) (st : SelState),
      st.buf.cnt ≤ (l.foldl (selVertex gnn nnl cl Lmax iC iM) st).buf.cnt := by
  intro l
  induction l with
  | nil => intro st; exact le_refl _
  | cons a t ih =>
    intro st
    exact le_trans (selVertex_cnt_le gnn nnl cl Lmax iC iM st a) (ih _)

/-- Claim C4 as amended: `refine` performs no validation of `L_max` at all — for
any `L_max` (in particular any non-positive value), any edge whose metric length
exceeds `L_max` at its lower-GID endpoint is selected, a new vertex is staged,
and the mesh is subsequently mutated; no error is reported (the driver has no
error channel). -/
theorem selection_ignores_Lmax_sign (gnn : Nat → Int) (nnl : List (List Nat))
    (cl : Nat → Nat → ℚ) (Lmax : ℚ) (iC iM : Nat → Nat → List ℚ) (i it : Nat)
    (hi : i < nnl.length) (hit : it < (nnl.getD i []).length)
    (hord : gnn i < gnn ((nnl.getD i []).getD it 0))
    (hlong : Lmax < cl i ((nnl.getD i []).getD it 0)) :
    1 ≤ (selectPass gnn nnl cl Lmax iC iM).buf.cnt := by
  unfold selectPass
  have hmem : i ∈ List.range nnl.length := List.mem_range.mpr hi
  have key : ∀ (l : List Nat) (st : SelState), i ∈ l →
      st.buf.cnt < (l.foldl (selVertex gnn nnl cl Lmax iC iM) st).buf.cnt := by
    intro l
    induction l with
    | nil => intro st hm; cases hm
    | cons a t ih =>
      intro st hm
      rcases List.mem_cons.mp hm with rfl | hmt
      · have hv : st.buf.cnt < (selVertex gnn nnl cl Lmax iC iM st i).buf.cnt := by
          unfold selVertex
          exact foldl_selStep_cnt_strict gnn nnl cl Lmax iC iM i it
            ⟨hord, hlong⟩ (List.range (nnl.getD i []).length)
            (List.replicate (2 * (nnl.getD i []).length) (-1), st.buf)
            (List.mem_range.mpr hit)
        exact lt_of_lt_of_le hv (foldl_selVertex_cnt_le gnn nnl cl Lmax iC iM t _)
      · exact lt_of_le_of_lt (selVertex_cnt_le gnn nnl cl Lmax iC iM st a)
          (ih _ hmt)
  exact key (List.range nnl.length)
    ⟨List.replicate nnl.length [], ⟨0, [], [], []⟩⟩ hmem

/-- Witness for the amended C4: on the triangle mesh with `L_max = 0` the
selection pass stages a vertex. -/
theorem selection_ignores_Lmax_sign_witness :
    (0 : Nat) < 3 ∧ (0 : Nat) < 2 ∧ gnnId 0 < gnnId 1 ∧ (0 : ℚ) < clTri 0 1 ∧
    1 ≤ (selectPass gnnId nnlTri clTri 0 iCTri iMTri).buf.cnt :=
  ⟨by decide, by decide, by decide, by decide,
   selection_ignores_Lmax_sign gnnId nnlTri clTri 0 iCTri iMTri 0 0 (by decide)
     (by decide) (by decide) (by decide)⟩

/-- Counterexample to claim C4: calling the driver on the triangle mesh with
`L_max = 0` (not strictly positive) does not fail fast — it refines every edge
and mutates the mesh: the coordinate array doubles from 6 to 12 entries. -/
theorem refine_mutates_with_nonpositive_Lmax :
    (refineModel 2 1 gnnId Int.toNat nnlTri clTri iCTri iMTri 0 msTri).coords.length
      = 12 ∧ msTri.coords.length = 6 := by
  decide

/- ### Claim C9: idempotence on already-fine input -/

/-- All slots of a `refined_edges` state are the unset value `-1`. -/
def AllNeg (re : List (List Int)) : Prop :=
  ∀ r ∈ re, ∀ v ∈ r, v = -1

theorem getD_mem_of_lt {α : Type} {l : List α} {i : Nat} (h : i < l.length)
    (d : α) : l.getD i d ∈ l := by
  rw [List.getD_eq_getElem?_getD, List.getElem?_eq_getElem h]
  exact List.getElem_mem h

theorem allNeg_getD {re : List (List Int)} (h : AllNeg re) (lo idx : Nat) :
    (re.getD lo []).getD idx (-1) = -1 := by
  by_cases hlo : lo < re.length
  · have hrow : re.getD lo [] ∈ re := getD_mem_of_lt hlo []
    by_cases hidx : idx < (re.getD lo []).length
    · exact h _ hrow _ (getD_mem_of_lt hidx (-1))
    · rw [List.getD_eq_getElem?_getD, List.getElem?_eq_none
        (le_of_not_lt hidx)]
      rfl
  · have hempty : re.getD lo [] = [] := by
      rw [List.getD_eq_getElem?_getD, List.getElem?_eq_none
        (le_of_not_lt hlo)]
      rfl
    rw [hempty]
    rfl

theorem get_new_vertex_allNeg (gnn : Nat → Int) (nnl : List (List Nat))
    {re : List (List Int)} (h : AllNeg re) (a b : Nat) :
    get_new_vertex gnn nnl re a b = -1 := by
  unfold get_new_vertex
  split
  · exact allNeg_getD h _ _
  · rfl

theorem splitSet_allNeg (gnn : Nat → Int) (nnl : List (List Nat))
    {re : List (List Int)} (h : AllNeg re) (n : List Nat) :
    splitSet gnn nnl re n = [] := by
  unfold splitSet
  rw [List.filterMap_eq_nil_iff]
  intro jk _
  simp [get_new_vertex_allNeg gnn nnl h]

theorem propElement_allNeg (gnn : Nat → Int) (nnl : List (List Nat))
    {re : List (List Int)} (h : AllNeg re) (c : Nat) (n : List Nat) :
    propElement gnn nnl (re, c) n = (re, c) := by
  unfold propElement
  simp [splitSet_allNeg gnn nnl h]

theorem propScan_allNeg (gnn : Nat → Int) (nnl : List (List Nat))
    (en : List Int) {re : List (List Int)} (h : AllNeg re) :
    propScan gnn nnl en re = (re, 0) := by
  unfold propScan
  generalize (List.range (en.length / 4)).map (readElem en 4) = elems
  induction elems with
  | nil => rfl
  | cons n t ih =>
    rw [List.foldl_cons]
    by_cases h0 : n.getD 0 0 < 0
    · rw [if_pos h0]
      exact ih
    · rw [if_neg h0, propElement_allNeg gnn nnl h]
      exact ih

theorem propLoop_allNeg (gnn : Nat → Int) (nnl : List (List Nat))
    (iC iM : Nat → Nat → List ℚ) (en : List Int) :
    ∀ (k : Nat) (st : SelState), AllNeg st.re →
      propLoop gnn nnl iC iM en k st = st := by
  intro k
  induction k with
  | zero => intro st _; rfl
  | succ m _ =>
    intro st h
    show (let p := propScan gnn nnl en st.re
      let st2 := { st with re := p.1 }
      if p.2 = 0 then st2
      else propLoop gnn nnl iC iM en m (realizePass gnn nnl iC iM st2)) = st
    rw [propScan_allNeg gnn nnl en h]
    rfl

theorem foldl_selStep_noop (gnn : Nat → Int) (nnl : List (List Nat))
    (cl : Nat → Nat → ℚ) (Lmax : ℚ) (iC iM : Nat → Nat → List ℚ) (i : Nat) :
    ∀ (l : List Nat) (p : List Int × Buffers),
      (∀ it ∈ l, ¬(gnn i < gnn ((nnl.getD i []).getD it 0) ∧
        Lmax < cl i ((nnl.getD i []).getD it 0))) →
      l.foldl (selStep gnn nnl cl Lmax iC iM i) p = p := by
  intro l
  induction l with
  | nil => intro p _; rfl
  | cons a t ih =>
    intro p hnc
    rw [List.foldl_cons]
    have hstep : selStep gnn nnl cl Lmax iC iM i p a = p := by
      unfold selStep
      rw [if_neg (hnc a (List.mem_cons_self a t))]
    rw [hstep]
    exact ih p fun it hit => hnc it (List.mem_cons_of_mem a hit)

theorem selVertex_fine (gnn : Nat → Int) (nnl : List (List Nat))
    (cl : Nat → Nat → ℚ) (Lmax : ℚ) (iC iM : Nat → Nat → List ℚ)
    (st : SelState) (i : Nat)
    (h : ∀ u ∈ nnl.getD i [], gnn i < gnn u → cl i u ≤ Lmax) :
    selVertex gnn nnl cl Lmax iC iM st i =
      { re := st.re.set i (List.replicate (2 * (nnl.getD i []).length) (-1)),
        buf := st.buf } := by
  have hnc : ∀ it ∈ List.range (nnl.getD i []).length,
      ¬(gnn i < gnn ((nnl.getD i []).getD it 0) ∧
        Lmax < cl i ((nnl.getD i []).getD it 0)) := by
    intro it hit hcond
    have hit' : it < (nnl.getD i []).length := List.mem_range.mp hit
    have hmem : (nnl.getD i []).getD it 0 ∈ nnl.getD i [] :=
      getD_mem_of_lt hit' 0
    exact absurd hcond.2 (not_lt.mpr (h _ hmem hcond.1))
  simp only [selVertex]
  rw [foldl_selStep_noop gnn nnl cl Lmax iC iM i _ _ hnc]

theorem selectPass_fine (gnn : Nat → Int) (nnl : List (List Nat))
    (cl : Nat → Nat → ℚ) (Lmax : ℚ) (iC iM : Nat → Nat → List ℚ)
    (h : ∀ i, i < nnl.length → ∀ u ∈ nnl.getD i [], gnn i < gnn u →
      cl i u ≤ Lmax) :
    AllNeg (selectPass gnn nnl cl Lmax iC iM).re ∧
    (selectPass gnn nnl cl Lmax iC iM).buf = ⟨0, [], [], []⟩ := by
  unfold selectPass
  have key : ∀ (l : List Nat), (∀ i ∈ l, i < nnl.length) →
      ∀ (st : SelState), AllNeg st.re →
        AllNeg (l.foldl (selVertex gnn nnl cl Lmax iC iM) st).re ∧
        (l.foldl (selVertex gnn nnl cl Lmax iC iM) st).buf = st.buf := by
    intro l
    induction l with
    | nil => intro _ st hst; exact ⟨hst, rfl⟩
    | cons a t ih =>
      intro hl st hst
      rw [List.foldl_cons, selVertex_fine gnn nnl cl Lmax iC iM st a
        (h a (hl a (List.mem_cons_self a t)))]
      have hst' : AllNeg (st.re.set a
          (List.replicate (2 * (nnl.getD a []).length) (-1))) := by
        intro r hr v hv
        rcases List.mem_or_eq_of_mem_set hr with hr' | rfl
        · exact hst r hr' v hv
        · exact List.eq_of_mem_replicate hv
      exact ih (fun i hi => hl i (List.mem_cons_of_mem a hi)) _ hst'
  have hinit : AllNeg (List.replicate nnl.length ([] : List Int)) := by
    intro r hr v hv
    rw [List.eq_of_mem_replicate hr] at hv
    cases hv
  exact key (List.range nnl.length) (fun i hi => List.mem_range.mp hi)
    ⟨List.replicate nnl.length [], ⟨0, [], [], []⟩⟩ hinit

theorem fixRow_id (base : Nat) :
    ∀ (r : List Int), (∀ v ∈ r, v = -1) → fixRow base r = r
  | [], _ => rfl
  | [a], _ => rfl
  | a :: b :: t, h => by
    have ha : a = -1 := h a (by simp)
    have hrec : fixRow base t = t :=
      fixRow_id base t fun v hv => h v (by simp [hv])
    show (if a = -1 then a else a + base) :: b :: fixRow base t = a :: b :: t
    rw [if_pos ha, hrec]

theorem map_fixRow_allNeg (base : Nat) {re : List (List Int)}
    (h : AllNeg re) : AllNeg (re.map (fixRow base)) := by
  intro r hr v hv
  rcases List.mem_map.mp hr with ⟨r0, hr0, rfl⟩
  rw [fixRow_id base r0 (h r0 hr0)] at hv
  exact h r0 hr0 v hv

theorem tetSplits_allNeg (gnn : Nat → Int) (nnl : List (List Nat))
    {re : List (List Int)} (h : AllNeg re) (n : List Int) :
    tetSplits gnn nnl re n = [] := by
  unfold tetSplits
  rw [List.filterMap_eq_nil_iff]
  intro jk _
  simp [get_new_vertex_allNeg gnn nnl h]

theorem refine2DElement_allNeg (gnn : Nat → Int) (nnl : List (List Nat))
    {re : List (List Int)} (h : AllNeg re) (cl : Nat → Nat → ℚ)
    (n : List Int) : refine2DElement gnn nnl re cl n = ([], false) := by
  unfold refine2DElement
  by_cases h0 : n.getD 0 0 < 0
  · rw [if_pos h0]
  · rw [if_neg h0]
    simp [get_new_vertex_allNeg gnn nnl h]

theorem refine3DElement_allNeg (gnn : Nat → Int) (nnl : List (List Nat))
    {re : List (List Int)} (h : AllNeg re) (n : List Int) :
    refine3DElement gnn nnl re n = ([], false) := by
  unfold refine3DElement
  by_cases h0 : n.getD 0 0 < 0
  · rw [if_pos h0]
  · rw [if_neg h0]
    simp [tetSplits_allNeg gnn nnl h]

theorem subdividePass_allNeg (ndims : Nat) (gnn : Nat → Int)
    (nnl : List (List Nat)) {re : List (List Int)} (h : AllNeg re)
    (cl : Nat → Nat → ℚ) (en : List Int) :
    subdividePass ndims gnn nnl re cl en = en := by
  simp only [subdividePass]
  have key : ∀ (l : List Nat) (acc : List Int × List Int),
      l.foldl
        (fun (acc : List Int × List Int) i =>
          let n := readElem en (if ndims = 2 then 3 else 4) i
          let r := if ndims = 2 then refine2DElement gnn nnl re cl n
                   else refine3DElement gnn nnl re n
          if r.2 then
            (erase_elem acc.1 (if ndims = 2 then 3 else 4) i,
             acc.2 ++ r.1.flatten)
          else acc)
        acc = acc := by
    intro l
    induction l with
    | nil => intro acc; rfl
    | cons a t ih =>
      intro acc
      rw [List.foldl_cons]
      have hr : (if ndims = 2 then
          refine2DElement gnn nnl re cl
            (readElem en (if ndims = 2 then 3 else 4) a)
        else refine3DElement gnn nnl re
            (readElem en (if ndims = 2 then 3 else 4) a)) = ([], false) := by
        by_cases h2 : ndims = 2
        · rw [if_pos h2, refine2DElement_allNeg gnn nnl h]
        · rw [if_neg h2, refine3DElement_allNeg gnn nnl h]
      simp only [hr]
      exact ih acc
  rw [key]
  exact List.append_nil en

/-- Claim C9: if every edge of the input mesh (each neighbour `u` of each
vertex `i`, taken at its lower-GID endpoint) has metric length at most `L_max`,
then the driver appends no vertices, erases no elements, and returns the mesh
state bit-identical to the input — coordinates, metric, elements and owners all
unchanged (adjacency, which the source recomputes at the end, is outside the
returned state). -/
theorem refine_noop_on_fine_mesh (ndims nprocs : Nat) (gnn : Nat → Int)
    (g2l : Int → Nat) (nnl : List (List Nat)) (cl : Nat → Nat → ℚ)
    (iC iM : Nat → Nat → List ℚ) (Lmax : ℚ) (ms : MeshState)
    (h : ∀ i, i < nnl.length → ∀ u ∈ nnl.getD i [], gnn i < gnn u →
      cl i u ≤ Lmax) :
    refineModel ndims nprocs gnn g2l nnl cl iC iM Lmax ms = ms := by
  obtain ⟨hre, hbuf⟩ := selectPass_fine gnn nnl cl Lmax iC iM h
  have hst : (if ndims = 3 then
      propLoop gnn nnl iC iM ms.en ((nnl.map List.length).sum + 1)
        (selectPass gnn nnl cl Lmax iC iM)
    else selectPass gnn nnl cl Lmax iC iM) =
      selectPass gnn nnl cl Lmax iC iM := by
    by_cases h3 : ndims = 3
    · rw [if_pos h3,
        propLoop_allNeg gnn nnl iC iM ms.en ((nnl.map List.length).sum + 1) _
          hre]
    · rw [if_neg h3]
  show (let nnodes := nnl.length
    let sel := selectPass gnn nnl cl Lmax iC iM
    let fuel := (nnl.map List.length).sum + 1
    let st := if ndims = 3 then propLoop gnn nnl iC iM ms.en fuel sel else sel
    let ins := insertPhase nnodes ms st
    let ms2 := ins.1
    let st2 := ins.2.1
    let verts := ins.2.2
    let en2 := subdividePass ndims gnn nnl st2.re cl ms2.en
    { ms2 with en := en2, owner := ownerPhase nprocs ms2.owner g2l verts }) = ms
  simp only [hst]
  have hins : insertPhase nnl.length ms (selectPass gnn nnl cl Lmax iC iM) =
      (ms, ⟨(selectPass gnn nnl cl Lmax iC iM).re.map (fixRow nnl.length),
        ⟨0, [], [], []⟩⟩, []) := by
    unfold insertPhase
    rw [hbuf]
    simp
  simp only [hins]
  have hsub : subdividePass ndims gnn nnl
      ((selectPass gnn nnl cl Lmax iC iM).re.map (fixRow nnl.length)) cl ms.en
      = ms.en :=
    subdividePass_allNeg ndims gnn nnl (map_fixRow_allNeg nnl.length hre) cl
      ms.en
  simp only [hsub]
  have hown : ownerPhase nprocs ms.owner g2l [] = ms.owner := by
    unfold ownerPhase
    by_cases hp : 1 < nprocs
    · rw [if_pos hp]; rfl
    · rw [if_neg hp]
  simp only [hown]

/-- Witness for C9: the triangle mesh with `L_max = 2` (all edges at most 2) is
returned unchanged. -/
theorem refine_noop_on_fine_mesh_witness :
    (∀ i, i < nnlTri.length → ∀ u ∈ nnlTri.getD i [], gnnId i < gnnId u →
      clTri i u ≤ 2) ∧
    refineModel 2 1 gnnId Int.toNat nnlTri clTri iCTri iMTri 2 msTri = msTri :=
  ⟨by decide,
   refine_noop_on_fine_mesh 2 1 gnnId Int.toNat nnlTri clTri iCTri iMTri 2
     msTri (by decide)⟩

end Pragmatic
